import Mathlib

/-!
# Verification of the ATOMIC-DOM model builder core

Shallow embedding of `src/cluster/model_builder.py`: the precision table,
tensor sizing, the quantization engine (scale/zero-point computation,
value quantization, byte packing) and the cluster allocation planner
(memory-string parsing, wildcard expert-pattern expansion, deployment-plan
generation).

Modelling conventions:
* Python floats are modelled by exact rationals (`ℚ`); Python ints by `ℤ`.
* Python strings are modelled as lists of characters (`PyStr`).
* Operations that can raise a Python exception (`ZeroDivisionError`,
  `ValueError`, `OverflowError`, out-of-range `bytes(...)`) return `Option`,
  with `none` for the raising executions.
-/

namespace AtomicDom

/-- Python `round` (half-to-even rounding) on exact rationals. -/
def pyRound (q : ℚ) : ℤ :=
  let f := ⌊q⌋
  if q - f < 1/2 then f
  else if 1/2 < q - f then f + 1
  else if 2 ∣ f then f else f + 1

/-- Python `int()` applied to a number: truncation toward zero. -/
def pyTrunc (q : ℚ) : ℤ :=
  if q < 0 then ⌈q⌉ else ⌊q⌋

/-- Python strings, modelled as character lists. -/
abbrev PyStr := List Char

/-- Numeric value of a decimal digit character; `none` on a non-digit. -/
def digitVal (c : Char) : Option ℕ :=
  if c.isDigit then some (c.toNat - '0'.toNat) else none

/-- Base-10 value of a digit string; `none` if any character is not a digit.
The empty string yields `some 0` (callers enforce non-emptiness). -/
def digitsVal (s : PyStr) : Option ℕ :=
  s.foldl (fun acc c => acc.bind fun n => (digitVal c).map fun d => 10 * n + d) (some 0)

/-- Models Python `float(s)` on plain decimal literals: an optional sign,
digits with at most one decimal point, nothing else.  (The source only ever
feeds such literals, or garbage such as `"16G"`, to `float`.) -/
def pyFloat (s : PyStr) : Option ℚ :=
  let sign : ℚ := if s.head? = some '-' then -1 else 1
  let body := if s.head? = some '-' ∨ s.head? = some '+' then s.tail else s
  let ip := body.takeWhile fun c => c ≠ '.'
  let rest := body.dropWhile fun c => c ≠ '.'
  let fp := rest.tail
  if fp.contains '.' then none
  else if ip ++ fp = [] then none
  else
    match digitsVal ip, digitsVal fp with
    | some i, some f => some (sign * ((i : ℚ) + (f : ℚ) / 10 ^ fp.length))
    | _, _ => none

/-- Models Python `int(s)` on strings: an optional sign followed by digits. -/
def pyIntOfStr (s : PyStr) : Option ℤ :=
  let sign : ℤ := if s.head? = some '-' then -1 else 1
  let body := if s.head? = some '-' ∨ s.head? = some '+' then s.tail else s
  if body = [] then none
  else (digitsVal body).map fun n => sign * n

/-- Python `str.strip()`: remove leading and trailing whitespace. -/
def pyStrip (s : PyStr) : PyStr :=
  ((s.dropWhile Char.isWhitespace).reverse.dropWhile Char.isWhitespace).reverse

/-- Python `min(values)` over a non-empty list (`none` on the empty list,
where Python raises). -/
def pyMin : List ℚ → Option ℚ
  | [] => none
  | a :: rest => some (rest.foldl min a)

/-- Python `max(values)` over a non-empty list. -/
def pyMax : List ℚ → Option ℚ
  | [] => none
  | a :: rest => some (rest.foldl max a)

/-! ## Precision table (`class Precision`) -/

/-- The closed set of precision kinds. -/
inductive Precision where
  | INT2
  | INT4
  | INT8
  | FP16
  | BF16
  | FP32
deriving DecidableEq, Repr

/-- `Precision.bytes_per_element` from the static table in the source. -/
def Precision.bytes_per_element : Precision → ℚ
  | .INT2 => 1/4
  | .INT4 => 1/2
  | .INT8 => 1
  | .FP16 => 2
  | .BF16 => 2
  | .FP32 => 4

/-- `Precision.bit_width` from the static table in the source. -/
def Precision.bit_width : Precision → ℕ
  | .INT2 => 2
  | .INT4 => 4
  | .INT8 => 8
  | .FP16 => 16
  | .BF16 => 16
  | .FP32 => 32

/-! ## Tensor structures (`TensorSpec`, `ExpertTensor`) -/

/-- `TensorSpec`: a named tensor with a shape and a precision. -/
structure TensorSpec where
  name : PyStr
  shape : List ℤ
  precision : Precision
  quantization_scale : Option ℚ := none
  quantization_zero_point : Option ℤ := none
deriving DecidableEq, Repr

/-- `TensorSpec.numel`: product of the shape dimensions, accumulated
left to right starting from 1 as in the source loop. -/
def TensorSpec.numel (t : TensorSpec) : ℤ :=
  t.shape.foldl (· * ·) 1

/-- `TensorSpec.size_bytes = int(numel * bytes_per_element)`. -/
def TensorSpec.size_bytes (t : TensorSpec) : ℤ :=
  pyTrunc ((t.numel : ℚ) * t.precision.bytes_per_element)

/-- `ExpertTensor`: the projection tensors of one expert. -/
structure ExpertTensor where
  expert_id : PyStr
  up_proj : TensorSpec
  down_proj : TensorSpec
  gate_proj : Option TensorSpec := none
deriving DecidableEq, Repr

/-- `ExpertTensor.total_bytes`: up + down, plus gate when present. -/
def ExpertTensor.total_bytes (e : ExpertTensor) : ℤ :=
  let total := e.up_proj.size_bytes + e.down_proj.size_bytes
  match e.gate_proj with
  | some g => total + g.size_bytes
  | none => total

/-! ## Model configuration (`AtomicExpertConfig`) -/

/-- `AtomicExpertConfig` with the defaults of the source. -/
structure AtomicExpertConfig where
  total_experts : ℤ := 108
  active_experts : ℤ := 4
  expert_dim : ℤ := 512
  shared_dim : ℤ := 1024
  hidden_dim : ℤ := 2048
  vocab_size : ℤ := 32000
  num_layers : ℤ := 12
  expert_precision : Precision := .INT4
  router_precision : Precision := .FP16
  shared_precision : Precision := .FP16
deriving DecidableEq, Repr

/-! ## Quantization engine (`QuantizationEngine`) -/

/-- `QuantizationEngine.compute_scale_zp`.  Python raises
`ZeroDivisionError` at `min_val / scale` exactly when `scale == 0`
(i.e. `max_val == min_val`); that execution is `none` here. -/
def compute_scale_zp (min_val max_val : ℚ) (precision : Precision) :
    Option (ℚ × ℤ) :=
  let qmin : ℤ := 0
  let qmax : ℤ := 2 ^ precision.bit_width - 1
  let scale : ℚ := (max_val - min_val) / ((qmax : ℚ) - (qmin : ℚ))
  if scale = 0 then none
  else
    let zero_point : ℤ := pyRound ((qmin : ℚ) - min_val / scale)
    some (scale, max qmin (min qmax zero_point))

/-- The clamp `max(0, min((1 << bit_width) - 1, q))` applied to each
quantized value. -/
def clampQ (precision : Precision) (q : ℤ) : ℤ :=
  max 0 (min (2 ^ precision.bit_width - 1) q)

/-- The intermediate result of `quantize_tensor` on a non-empty input:
the scale, the zero point, and the list of clamped quantized integers
`max(0, min(2^bit_width - 1, round(v / scale) + zero_point))`. -/
def quantized_ints (values : List ℚ) (precision : Precision) :
    Option (ℚ × ℤ × List ℤ) :=
  match pyMin values, pyMax values with
  | some min_val, some max_val =>
    match compute_scale_zp min_val max_val precision with
    | none => none
    | some (scale, zero_point) =>
      some (scale, zero_point,
        values.map fun v => clampQ precision (pyRound (v / scale) + zero_point))
  | _, _ => none

/-! ### Byte packing (`QuantizationEngine._pack_values`) -/

/-- One packed byte of the 2-bit layout: value `j` (0..3) occupies bits
`2j..2j+1`; absent trailing values contribute zero bits.  `v & 0x3` on a
Python int is `v mod 4`. -/
def int2Byte (a b c d : ℤ) : ℕ :=
  (a % 4).toNat ||| ((b % 4).toNat <<< 2) ||| ((c % 4).toNat <<< 4) |||
    ((d % 4).toNat <<< 6)

/-- 2-bit packing: four values per byte, the final partial group
zero-padded. -/
def packInt2 : List ℤ → List ℕ
  | [] => []
  | [a] => [int2Byte a 0 0 0]
  | [a, b] => [int2Byte a b 0 0]
  | [a, b, c] => [int2Byte a b c 0]
  | a :: b :: c :: d :: rest => int2Byte a b c d :: packInt2 rest

/-- 4-bit packing: first value in the low nibble, second in the high
nibble; an odd final value gets a zero high nibble.  `v & 0xF` is
`v mod 16`. -/
def packInt4 : List ℤ → List ℕ
  | [] => []
  | [a] => [(a % 16).toNat]
  | a :: b :: rest => ((a % 16).toNat ||| ((b % 16).toNat <<< 4)) :: packInt4 rest

/-- IEEE-754 binary encoding (round to nearest, ties to even) of an
integer value, with `mantBits` stored mantissa bits and `expBits`
exponent bits; `none` when the rounded value overflows the format, where
the Python `struct.pack` raises `OverflowError`.  This models
`struct.pack` on the integer inputs the quantizer produces (all of
magnitude below `2^53`, hence converted to double exactly). -/
def encodeIEEE (mantBits expBits : ℕ) (v : ℤ) : Option ℕ :=
  if v = 0 then some 0
  else
    let sign : ℕ := if v < 0 then 1 else 0
    let n : ℕ := v.natAbs
    let e0 : ℕ := Nat.log2 n
    let mant0 : ℤ := pyRound (((n : ℚ) * 2 ^ mantBits) / 2 ^ e0)
    let em : ℕ × ℤ :=
      if mant0 = 2 ^ (mantBits + 1) then (e0 + 1, 2 ^ mantBits) else (e0, mant0)
    let bias : ℕ := 2 ^ (expBits - 1) - 1
    if bias < em.1 then none
    else
      some ((sign <<< (mantBits + expBits)) ||| ((em.1 + bias) <<< mantBits) |||
        (em.2 - 2 ^ mantBits).toNat)

/-- Little-endian byte list of an unsigned bit pattern. -/
def leBytes (width bits : ℕ) : List ℕ :=
  (List.range width).map fun i => (bits >>> (8 * i)) % 256

/-- `struct.pack('e', v)` for every value in turn (2-byte IEEE half,
little-endian); the first overflow aborts, as the raised exception
does. -/
def packHalf (values : List ℤ) : Option (List ℕ) :=
  (values.mapM (encodeIEEE 10 5)).map fun bs => (bs.map (leBytes 2)).flatten

/-- `struct.pack('f', v)` for every value in turn (4-byte IEEE single,
little-endian). -/
def packFloat32 (values : List ℤ) : Option (List ℕ) :=
  (values.mapM (encodeIEEE 23 8)).map fun bs => (bs.map (leBytes 4)).flatten

/-- `QuantizationEngine._pack_values`.  `bytes(values)` for INT8 raises
`ValueError` when a value is outside `[0, 256)`; the FP16 and BF16 arms
are one and the same `struct.pack('e', ...)` loop in the source. -/
def pack_values (values : List ℤ) (precision : Precision) : Option (List ℕ) :=
  match precision with
  | .INT2 => some (packInt2 values)
  | .INT4 => some (packInt4 values)
  | .INT8 =>
    if values.all fun v => 0 ≤ v ∧ v < 256 then
      some (values.map Int.toNat)
    else none
  | .FP16 => packHalf values
  | .BF16 => packHalf values
  | .FP32 => packFloat32 values

/-- `QuantizationEngine.quantize_tensor`: empty input short-circuits to
`(b"", 1.0, 0)`; otherwise quantize against the value range and pack. -/
def quantize_tensor (values : List ℚ) (precision : Precision) :
    Option (List ℕ × ℚ × ℤ) :=
  match values with
  | [] => some ([], 1, 0)
  | _ :: _ =>
    match quantized_ints values precision with
    | none => none
    | some (scale, zero_point, quantized) =>
      (pack_values quantized precision).map fun packed =>
        (packed, scale, zero_point)

/-! ## Expert builder (`ExpertBuilder`) -/

/-- `ExpertBuilder.build_expert`: up, down and gate projections at the
configured expert precision. -/
def build_expert (config : AtomicExpertConfig) (expert_id : PyStr) : ExpertTensor :=
  { expert_id := expert_id
    up_proj :=
      { name := expert_id ++ ".up_proj".toList
        shape := [config.expert_dim, config.hidden_dim]
        precision := config.expert_precision }
    down_proj :=
      { name := expert_id ++ ".down_proj".toList
        shape := [config.hidden_dim, config.expert_dim]
        precision := config.expert_precision }
    gate_proj := some
      { name := expert_id ++ ".gate_proj".toList
        shape := [config.expert_dim, config.hidden_dim]
        precision := config.expert_precision } }

/-- `ExpertBuilder.build_router`. -/
def build_router (config : AtomicExpertConfig) : TensorSpec :=
  { name := "router.weight".toList
    shape := [config.shared_dim, config.total_experts]
    precision := config.router_precision }

/-! ## Cluster builder (`ClusterBuilder`) -/

/-- `ClusterBuilder.parse_memory`: uppercase and strip, try the suffixes
`B`, `KB`, `MB`, `GB`, `TB` in that order (dict insertion order),
and on the first suffix hit parse the remaining characters with
`float(...)`; with no suffix hit parse the whole string with `int(...)`.
`none` models the `ValueError` of a failed numeric conversion. -/
def parse_memory (mem_str : PyStr) : Option ℤ :=
  let units : List (PyStr × ℤ) :=
    [("B".toList, 1), ("KB".toList, 1024), ("MB".toList, 1024 ^ 2),
     ("GB".toList, 1024 ^ 3), ("TB".toList, 1024 ^ 4)]
  let m := pyStrip (mem_str.map Char.toUpper)
  match units.find? fun u => u.1.isSuffixOf m with
  | some (unit, multiplier) =>
    (pyFloat (m.take (m.length - unit.length))).map fun f =>
      pyTrunc (f * (multiplier : ℚ))
  | none => pyIntOfStr m

/-- `ClusterBuilder.expand_expert_pattern`: a pattern ending in `*`
filters the registry by the prefix before the `*`; otherwise the pattern
matches only itself, when present in the registry. -/
def expand_expert_pattern (pattern : PyStr) (all_experts : List PyStr) :
    List PyStr :=
  if ['*'].isSuffixOf pattern then
    let pref := pattern.dropLast
    all_experts.filter fun e => pref.isPrefixOf e
  else if pattern ∈ all_experts then [pattern] else []

/-- One cluster-node entry of the configuration (`id`, `gpu.device`,
`gpu.memory`, `experts` pattern list), with the keys the planner reads
made explicit. -/
structure NodeCfg where
  id : PyStr
  device : PyStr
  memory : PyStr
  experts : List PyStr
deriving DecidableEq, Repr

/-- The configuration slice the planner reads: the cluster node list and
the expert registry categories (name, expert-id list) in declaration
order. -/
structure Config where
  nodes : List NodeCfg
  categories : List (PyStr × List PyStr)
deriving DecidableEq, Repr

/-- `NodeAllocation`. -/
structure NodeAllocation where
  node_id : PyStr
  device : PyStr
  memory_budget : ℤ
  experts : List PyStr := []
  memory_used : ℤ := 0
deriving DecidableEq, Repr

/-- The per-node planner loop: apply `f` to every element in order,
aborting at the first failure, as the raised Python exception does. -/
def tryMap (f : α → Option β) : List α → Option (List β)
  | [] => some []
  | a :: rest => (f a).bind fun b => (tryMap f rest).map fun bs => b :: bs

/-- `ClusterBuilder.build_allocation`: concatenate the category expert
lists into the registry, then for every node parse its budget, expand
its patterns in order, and sum the byte totals of the built experts.  A memory
parse failure aborts the pass (the Python exception propagates). -/
def build_allocation (config : Config) (expert_config : AtomicExpertConfig) :
    Option (List NodeAllocation) :=
  let all_experts := (config.categories.map Prod.snd).flatten
  tryMap (fun node =>
    (parse_memory node.memory).map fun budget =>
      let experts := node.experts.flatMap fun pattern =>
        expand_expert_pattern pattern all_experts
      { node_id := node.id
        device := node.device
        memory_budget := budget
        experts := experts
        memory_used :=
          (experts.map fun eid => (build_expert expert_config eid).total_bytes).sum })
    config.nodes

/-- One per-node record of the emitted plan. -/
structure NodeInfo where
  node_id : PyStr
  device : PyStr
  memory_budget_bytes : ℤ
  memory_used_bytes : ℤ
  memory_utilization : ℚ
  expert_count : ℕ
  experts : List PyStr
deriving DecidableEq, Repr

/-- The `cluster` section of the plan. -/
structure ClusterPlan where
  nodes : List NodeInfo
  total_memory_used : ℤ
  total_memory_budget : ℤ
deriving DecidableEq, Repr

/-- One per-assignment expert detail record of the plan. -/
structure ExpertRecord where
  id : PyStr
  node : PyStr
  device : PyStr
  total_bytes : ℤ
deriving DecidableEq, Repr

/-- The deployment plan: the router descriptor, the cluster section and
the expert detail records (the `model.config` echo of the input is
omitted as pure plumbing). -/
structure Plan where
  router : TensorSpec
  cluster : ClusterPlan
  experts : List ExpertRecord
deriving DecidableEq, Repr

/-- The per-node plan record assembled in the loop of
`generate_deployment_plan`, with `memory_utilization = used / budget` when the budget is
positive and `0` otherwise. -/
def nodeInfoOf (alloc : NodeAllocation) : NodeInfo :=
  { node_id := alloc.node_id
    device := alloc.device
    memory_budget_bytes := alloc.memory_budget
    memory_used_bytes := alloc.memory_used
    memory_utilization :=
      if alloc.memory_budget > 0 then
        (alloc.memory_used : ℚ) / (alloc.memory_budget : ℚ)
      else 0
    expert_count := alloc.experts.length
    experts := alloc.experts }

/-- `ClusterBuilder.generate_deployment_plan`: build the allocations,
then accumulate node records, totals and expert detail records in one
pass over the allocations. -/
def generate_deployment_plan (config : Config)
    (expert_config : AtomicExpertConfig) : Option Plan :=
  (build_allocation config expert_config).map fun allocations =>
    { router := build_router expert_config
      cluster :=
        { nodes := allocations.map nodeInfoOf
          total_memory_used := (allocations.map NodeAllocation.memory_used).sum
          total_memory_budget := (allocations.map NodeAllocation.memory_budget).sum }
      experts := allocations.flatMap fun alloc =>
        alloc.experts.map fun eid =>
          { id := eid
            node := alloc.node_id
            device := alloc.device
            total_bytes := (build_expert expert_config eid).total_bytes } }

/-! ## Concrete planner instances -/

/-- A small expert configuration: 2x2 INT8 projections, 12 bytes per
expert. -/
def ec0 : AtomicExpertConfig :=
  { expert_dim := 2, hidden_dim := 2, expert_precision := .INT8 }

/-- A two-node cluster configuration: node `n1` with an 8-byte budget
and the pattern `math-*`, node `n2` with a zero budget and no
patterns, one registry category holding `math-a`. -/
def cfg0 : Config :=
  { nodes :=
      [{ id := "n1".toList, device := "gpu".toList, memory := "8".toList,
         experts := ["math-*".toList] },
       { id := "n2".toList, device := "cpu".toList, memory := "0".toList,
         experts := [] }],
    categories := [("math".toList, ["math-a".toList])] }

/-- The deployment plan the planner emits for `cfg0`/`ec0`: node `n1`
over budget (12 bytes used of 8, utilization 3/2), node `n2` idle with
utilization 0. -/
def plan0 : Plan :=
  { router :=
      { name := "router.weight".toList, shape := [1024, 108], precision := .FP16 }
    cluster :=
      { nodes :=
          [{ node_id := "n1".toList, device := "gpu".toList,
             memory_budget_bytes := 8, memory_used_bytes := 12,
             memory_utilization := 3/2, expert_count := 1,
             experts := ["math-a".toList] },
           { node_id := "n2".toList, device := "cpu".toList,
             memory_budget_bytes := 0, memory_used_bytes := 0,
             memory_utilization := 0, expert_count := 0, experts := [] }]
        total_memory_used := 12
        total_memory_budget := 8 }
    experts :=
      [{ id := "math-a".toList, node := "n1".toList, device := "gpu".toList,
         total_bytes := 12 }] }

/-! ## Theorems -/

/-- C10: for every precision kind, `quantize_tensor` on the empty value
list returns the empty byte buffer with `scale = 1.0` and
`zeroPoint = 0`, not an error. -/
theorem quantize_empty_noop (precision : Precision) :
    quantize_tensor [] precision = some ([], 1, 0) := rfl

/-- C4 (refuted as stated): the byte buffer produced for the FP16 kind
equals the byte buffer produced for the BF16 kind on every value list,
because the source packs both kinds with the same `struct.pack('e', ...)`
loop; no list distinguishes them. -/
theorem pack_fp16_eq_bf16 (values : List ℤ) :
    pack_values values .FP16 = pack_values values .BF16 := rfl

/-- C1 (code evaluated at the failing inputs): `parse_memory` tries the
suffix `B` first and every `KB`/`MB`/`GB`/`TB` string also ends in `B`,
so `"16GB"` and `"512MB"` feed `"16G"`/`"512M"` to `float` and fail
with `ValueError` instead of returning `17179869184` and `536870912`;
only the suffix-free raw count `"1024"` parses as the claim states. -/
theorem parse_memory_suffix_bug :
    parse_memory "16GB".toList = none
    ∧ parse_memory "512MB".toList = none
    ∧ parse_memory "1024".toList = some 1024 :=
  ⟨rfl, rfl, rfl⟩

/-- C2 (code evaluated at the failing inputs): on every non-empty value
list whose minimum equals its maximum, `quantize_tensor` fails for every
precision kind — `compute_scale_zp` produces `scale = 0` and its
`min_val / scale` division raises, with no special case for equal
bounds. -/
theorem quantize_equal_bounds_raises (values : List ℚ) (precision : Precision)
    (hne : values ≠ []) (heq : pyMin values = pyMax values) :
    quantize_tensor values precision = none := by
  cases values with
  | nil => exact absurd rfl hne
  | cons a rest =>
    have h : rest.foldl min a = rest.foldl max a := by
      simpa [pyMin, pyMax] using heq
    simp [quantize_tensor, quantized_ints, pyMin, pyMax, compute_scale_zp, h]

/-- Witness for `quantize_equal_bounds_raises` at the singleton list. -/
theorem quantize_equal_bounds_raises_witness :
    ([1] : List ℚ) ≠ [] ∧ pyMin [1] = pyMax [1]
    ∧ quantize_tensor [1] .INT8 = none :=
  ⟨by decide, by decide,
    quantize_equal_bounds_raises [1] .INT8 (by decide) (by decide)⟩

/-- C8: a pattern ending in `*` expands to exactly the registry entries
starting with the prefix before the `*`, in registry order; a pattern
containing no `*` expands to itself when registered and to nothing
otherwise; in particular `"math-*"` and the absent `"lang-go"` behave as
the examples of the spec state. -/
theorem expand_pattern_correct (pattern : PyStr) (registry : List PyStr) :
    (['*'].isSuffixOf pattern →
      expand_expert_pattern pattern registry =
        registry.filter fun e => pattern.dropLast.isPrefixOf e)
    ∧ ('*' ∉ pattern →
      expand_expert_pattern pattern registry =
        if pattern ∈ registry then [pattern] else [])
    ∧ expand_expert_pattern "math-*".toList
        ["math-algebra".toList, "math-calculus".toList, "lang-python".toList] =
        ["math-algebra".toList, "math-calculus".toList]
    ∧ expand_expert_pattern "lang-go".toList
        ["math-algebra".toList, "math-calculus".toList, "lang-python".toList] = [] := by
  refine ⟨fun h => by simp [expand_expert_pattern, h], fun h => ?_, by decide, by decide⟩
  have hs : ¬ ['*'].isSuffixOf pattern := by
    intro hsuf
    exact h ((List.isSuffixOf_iff_suffix.mp hsuf).sublist.mem (by simp))
  simp [expand_expert_pattern, hs]

/-- Witness for `expand_pattern_correct`: both implications discharged
on the concrete registry of the spec. -/
theorem expand_pattern_correct_witness :
    expand_expert_pattern "math-*".toList
        ["math-algebra".toList, "math-calculus".toList, "lang-python".toList] =
      (["math-algebra".toList, "math-calculus".toList, "lang-python".toList].filter
        fun e => ("math-*".toList).dropLast.isPrefixOf e)
    ∧ expand_expert_pattern "lang-go".toList
        ["math-algebra".toList, "math-calculus".toList, "lang-python".toList] =
      (if "lang-go".toList ∈
          ["math-algebra".toList, "math-calculus".toList, "lang-python".toList] then
        ["lang-go".toList] else []) :=
  ⟨(expand_pattern_correct "math-*".toList
      ["math-algebra".toList, "math-calculus".toList, "lang-python".toList]).1
      (by decide),
   (expand_pattern_correct "lang-go".toList
      ["math-algebra".toList, "math-calculus".toList, "lang-python".toList]).2.1
      (by decide)⟩

/-- C6: with a shape of positive integers, `numel` is the product of the
dimensions and `size_bytes` is the floor of `numel * bytesPerElement`. -/
theorem tensor_size_correct (name : PyStr) (shape : List ℤ)
    (precision : Precision) (qscale : Option ℚ) (qzp : Option ℤ)
    (hpos : ∀ d ∈ shape, 0 < d) :
    (TensorSpec.mk name shape precision qscale qzp).numel = shape.prod
    ∧ (TensorSpec.mk name shape precision qscale qzp).size_bytes =
        ⌊((shape.prod : ℤ) : ℚ) * precision.bytes_per_element⌋ := by
  have hnumel : (TensorSpec.mk name shape precision qscale qzp).numel = shape.prod := by
    simp [TensorSpec.numel, List.prod_eq_foldl]
  refine ⟨hnumel, ?_⟩
  have hprod : (0 : ℤ) < shape.prod := List.prod_pos hpos
  have hbpe : (0 : ℚ) < precision.bytes_per_element := by
    cases precision <;> norm_num [Precision.bytes_per_element]
  have hnn : (0 : ℚ) ≤ ((shape.prod : ℤ) : ℚ) * precision.bytes_per_element := by
    have : (0 : ℚ) ≤ ((shape.prod : ℤ) : ℚ) := by exact_mod_cast hprod.le
    exact mul_nonneg this hbpe.le
  rw [TensorSpec.size_bytes, hnumel, pyTrunc, if_neg (not_lt.mpr hnn)]

/-- Witness for `tensor_size_correct`: shape `(512, 2048)` at 4-bit
precision occupies `524288` bytes. -/
theorem tensor_size_correct_witness :
    (TensorSpec.mk "w".toList [512, 2048] .INT4 none none).numel = 1048576
    ∧ (TensorSpec.mk "w".toList [512, 2048] .INT4 none none).size_bytes = 524288 := by
  have h := tensor_size_correct "w".toList [512, 2048] .INT4 none none (by decide)
  constructor
  · rw [h.1]; decide
  · rw [h.2]
    norm_num [List.prod_cons, List.prod_nil, Precision.bytes_per_element]

/-- The 2-bit packer emits one byte per started group of four values. -/
theorem packInt2_length : ∀ l : List ℤ, (packInt2 l).length = (l.length + 3) / 4
  | [] => rfl
  | [_] => by simp [packInt2]
  | [_, _] => by simp [packInt2]
  | [_, _, _] => by simp [packInt2]
  | _ :: _ :: _ :: _ :: rest => by
    simp [packInt2, packInt2_length rest]
    omega

/-- The 4-bit packer emits one byte per started pair of values. -/
theorem packInt4_length : ∀ l : List ℤ, (packInt4 l).length = (l.length + 1) / 2
  | [] => rfl
  | [_] => by simp [packInt4]
  | _ :: _ :: rest => by
    simp [packInt4, packInt4_length rest]
    omega

/-- On an odd-length input the final byte of the 4-bit packer has a zero
high nibble. -/
theorem packInt4_getD_odd : ∀ l : List ℤ, l.length % 2 = 1 →
    (packInt4 l).getD (l.length / 2) 0 < 16
  | [], h => by simp at h
  | [a], _ => by
    have h0 : (0 : ℤ) ≤ a % 16 := Int.emod_nonneg a (by norm_num)
    have h1 : a % 16 < 16 := Int.emod_lt_of_pos a (by norm_num)
    simp [packInt4, List.getD]
    omega
  | a :: b :: rest, h => by
    have hr : rest.length % 2 = 1 := by
      simp [List.length_cons] at h
      omega
    have hidx : (rest.length + 1 + 1) / 2 = rest.length / 2 + 1 := by omega
    simpa [packInt4, List.length_cons, hidx] using packInt4_getD_odd rest hr

/-- A 2-bit field value `(v mod 4).toNat` is below 4. -/
theorem int2Field_lt (a : ℤ) : (a % 4).toNat < 4 := by
  have h0 : (0 : ℤ) ≤ a % 4 := Int.emod_nonneg a (by norm_num)
  have h1 : a % 4 < 4 := Int.emod_lt_of_pos a (by norm_num)
  omega

/-- On an input whose length is not a multiple of 4, the final byte of
the 2-bit packer has zero bits in every slot past the `length mod 4`
occupied ones: it is below `4 ^ (length mod 4)`. -/
theorem packInt2_getD_partial : ∀ l : List ℤ, l.length % 4 ≠ 0 →
    (packInt2 l).getD (l.length / 4) 0 < 4 ^ (l.length % 4)
  | [], h => by simp at h
  | [a], _ => by
    have ha := int2Field_lt a
    simp [packInt2, int2Byte, List.getD, Nat.zero_shiftLeft]
    omega
  | [a, b], _ => by
    have ha := int2Field_lt a
    have hb := int2Field_lt b
    have hbyte : (a % 4).toNat ||| ((b % 4).toNat <<< 2) < 2 ^ 4 :=
      Nat.or_lt_two_pow (by omega) (by rw [Nat.shiftLeft_eq]; omega)
    simp [packInt2, int2Byte, List.getD, Nat.zero_shiftLeft]
    omega
  | [a, b, c], _ => by
    have ha := int2Field_lt a
    have hb := int2Field_lt b
    have hc := int2Field_lt c
    have hbyte : (a % 4).toNat ||| ((b % 4).toNat <<< 2) |||
        ((c % 4).toNat <<< 4) < 2 ^ 6 :=
      Nat.or_lt_two_pow
        (Nat.or_lt_two_pow (by omega) (by rw [Nat.shiftLeft_eq]; omega))
        (by rw [Nat.shiftLeft_eq]; omega)
    simp [packInt2, int2Byte, List.getD, Nat.zero_shiftLeft]
    omega
  | a :: b :: c :: d :: rest, h => by
    have hr : rest.length % 4 ≠ 0 := by
      simp [List.length_cons] at h
      omega
    have hidx : (rest.length + 1 + 1 + 1 + 1) / 4 = rest.length / 4 + 1 := by
      omega
    have hmod : (rest.length + 1 + 1 + 1 + 1) % 4 = rest.length % 4 := by
      omega
    simpa [packInt2, List.length_cons, hidx, hmod]
      using packInt2_getD_partial rest hr

/-- C7: for every list of quantized values (each in `[0, 256)`), the
packed buffer has `ceil(n/4)` bytes at 2-bit precision, `ceil(n/2)`
bytes at 4-bit precision, and exactly `n` bytes at 8-bit precision;
trailing sub-byte slots are zero-padded: on an odd-length 4-bit input
the final high nibble is zero, and on a 2-bit input with a partial final
group the final byte is zero above its `length mod 4` occupied 2-bit
slots. -/
theorem pack_length_correct (values : List ℤ)
    (h : ∀ v ∈ values, 0 ≤ v ∧ v < 256) :
    (pack_values values .INT2).map List.length = some ((values.length + 3) / 4)
    ∧ (pack_values values .INT4).map List.length = some ((values.length + 1) / 2)
    ∧ (pack_values values .INT8).map List.length = some values.length
    ∧ (values.length % 2 = 1 →
        (packInt4 values).getD (values.length / 2) 0 < 16)
    ∧ (values.length % 4 ≠ 0 →
        (packInt2 values).getD (values.length / 4) 0 < 4 ^ (values.length % 4)) := by
  refine ⟨?_, ?_, ?_, fun hodd => packInt4_getD_odd values hodd,
    fun hpart => packInt2_getD_partial values hpart⟩
  · simp [pack_values, packInt2_length]
  · simp [pack_values, packInt4_length]
  · have hall : values.all (fun v => decide (0 ≤ v) && decide (v < 256)) = true :=
      List.all_eq_true.mpr fun v hv => by
        simpa using h v hv
    simp [pack_values, hall]

/-- Witness for `pack_length_correct` at the value list `[1, 2, 3]`. -/
theorem pack_length_correct_witness :
    (∀ v ∈ ([1, 2, 3] : List ℤ), 0 ≤ v ∧ v < 256)
    ∧ (pack_values [1, 2, 3] .INT2).map List.length = some 1
    ∧ (pack_values [1, 2, 3] .INT4).map List.length = some 2
    ∧ (pack_values [1, 2, 3] .INT8).map List.length = some 3
    ∧ (packInt4 [1, 2, 3]).getD 1 0 < 16
    ∧ (packInt2 [1, 2, 3]).getD 0 0 < 64 :=
  ⟨by decide,
   (pack_length_correct [1, 2, 3] (by decide)).1,
   (pack_length_correct [1, 2, 3] (by decide)).2.1,
   (pack_length_correct [1, 2, 3] (by decide)).2.2.1,
   (pack_length_correct [1, 2, 3] (by decide)).2.2.2.1 (by decide),
   (pack_length_correct [1, 2, 3] (by decide)).2.2.2.2 (by decide)⟩

/-- `pyRound` of an integer is that integer. -/
theorem pyRound_intCast (n : ℤ) : pyRound (n : ℚ) = n := by
  simp [pyRound, Int.floor_intCast]

/-- Rounding (with any tie-breaking) moves a rational by at most 1/2. -/
theorem pyRound_abs_le (q : ℚ) : |(pyRound q : ℚ) - q| ≤ 1/2 := by
  have h0 : (⌊q⌋ : ℚ) ≤ q := Int.floor_le q
  have h1 : q < ⌊q⌋ + 1 := Int.lt_floor_add_one q
  simp only [pyRound]
  split_ifs with ha hb hc <;>
    (rw [abs_le]; push_cast; constructor <;> linarith)

/-- A left fold of `min` is at most its seed. -/
theorem foldl_min_le_seed : ∀ (l : List ℚ) (s : ℚ), l.foldl min s ≤ s
  | [], s => le_refl s
  | b :: t, s => le_trans (foldl_min_le_seed t (min s b)) (min_le_left s b)

/-- A left fold of `max` is at least its seed. -/
theorem le_foldl_max_seed : ∀ (l : List ℚ) (s : ℚ), s ≤ l.foldl max s
  | [], s => le_refl s
  | b :: t, s => le_trans (le_max_left s b) (le_foldl_max_seed t (max s b))

/-- `min`-fold over a non-empty list bounds every member from below. -/
theorem foldl_min_le : ∀ (l : List ℚ) (a : ℚ), ∀ v ∈ a :: l, l.foldl min a ≤ v
  | [], a => by
    intro v hv
    simp only [List.mem_singleton] at hv
    simp [hv]
  | b :: t, a => by
    intro v hv
    simp only [List.mem_cons] at hv
    rcases hv with rfl | rfl | hv
    · exact le_trans (foldl_min_le_seed t (min v b)) (min_le_left v b)
    · exact le_trans (foldl_min_le_seed t (min a v)) (min_le_right a v)
    · exact foldl_min_le t (min a b) v (List.mem_cons_of_mem _ hv)

/-- `max`-fold over a non-empty list bounds every member from above. -/
theorem le_foldl_max : ∀ (l : List ℚ) (a : ℚ), ∀ v ∈ a :: l, v ≤ l.foldl max a
  | [], a => by
    intro v hv
    simp only [List.mem_singleton] at hv
    simp [hv]
  | b :: t, a => by
    intro v hv
    simp only [List.mem_cons] at hv
    rcases hv with rfl | rfl | hv
    · exact le_trans (le_max_left v b) (le_foldl_max_seed t (max v b))
    · exact le_trans (le_max_right a v) (le_foldl_max_seed t (max a v))
    · exact le_foldl_max t (max a b) v (List.mem_cons_of_mem _ hv)

/-- Every precision kind has `2 ^ bitWidth - 1 ≥ 1`. -/
theorem one_le_qmax (precision : Precision) :
    (1 : ℚ) ≤ 2 ^ precision.bit_width - 1 := by
  cases precision <;> norm_num [Precision.bit_width]

/-- C3 (counterexample to the claim as stated): on `[1, 2]` at 8-bit
precision the zero point `round(0 - 1/scale) = -255` is clamped up to
`0`, both values quantize to `255`, and the reconstruction
`(255 - 0) * scale = 1` misses `vs[1] = 2` by `1`, far above `scale/2`
(the representational-error term is `0` for an integer kind). -/
theorem quantize_roundtrip_counterexample :
    quantized_ints [1, 2] .INT8 = some (1/255, 0, [255, 255])
    ∧ ¬ |((255 : ℚ) - 0) * (1/255) - 2| ≤ (1/255) / 2 + 0 := by
  constructor
  · norm_num [quantized_ints, pyMin, pyMax, compute_scale_zp, clampQ, pyRound,
      Precision.bit_width, min_def, max_def]
  · rw [show ((255 : ℚ) - 0) * (1/255) - 2 = -1 by norm_num]
    rw [abs_neg, abs_one]
    norm_num

/-- C3 (amended): for a non-empty value list with `min < max` (so the
scale is defined) and any precision, at every index whose raw quantized
value `round(v/scale) + zeroPoint` already lies inside
`[0, 2^bitWidth - 1]` — i.e. the clamp does not alter it — the
reconstruction `(q - zeroPoint) * scale` differs from the input value by
at most `scale/2` in exact arithmetic. -/
theorem quantize_roundtrip_unclamped (values : List ℚ) (precision : Precision)
    (scale : ℚ) (zero_point : ℤ) (qs : List ℤ)
    (hq : quantized_ints values precision = some (scale, zero_point, qs))
    (i : ℕ) (hi : i < values.length)
    (hlo : 0 ≤ pyRound (values.getD i 0 / scale) + zero_point)
    (hhi : pyRound (values.getD i 0 / scale) + zero_point ≤
      2 ^ precision.bit_width - 1) :
    |((qs.getD i 0 : ℚ) - (zero_point : ℚ)) * scale - values.getD i 0| ≤
      scale / 2 := by
  cases values with
  | nil => simp [quantized_ints, pyMin] at hq
  | cons a rest =>
    simp only [quantized_ints, pyMin, pyMax] at hq
    rcases hsc : compute_scale_zp (rest.foldl min a) (rest.foldl max a) precision
      with _ | ⟨scale', zp'⟩
    · rw [hsc] at hq
      simp at hq
    · rw [hsc] at hq
      simp only [Option.some.injEq] at hq
      obtain ⟨rfl, rfl, rfl⟩ := Prod.mk.injEq .. ▸ hq
      -- Extract the scale formula and its nonvanishing from `compute_scale_zp`.
      simp only [compute_scale_zp] at hsc
      by_cases h0 :
          (rest.foldl max a - rest.foldl min a) /
            (((2 ^ precision.bit_width - 1 : ℤ) : ℚ) - ((0 : ℤ) : ℚ)) = 0
      · rw [if_pos h0] at hsc
        exact absurd hsc (by simp)
      · rw [if_neg h0] at hsc
        simp only [Option.some.injEq, Prod.mk.injEq] at hsc
        obtain ⟨rfl, rfl⟩ := hsc
        have hD : (0 : ℚ) < ((2 ^ precision.bit_width - 1 : ℤ) : ℚ) - ((0 : ℤ) : ℚ) := by
          have := one_le_qmax precision
          push_cast
          linarith
        have hmM : rest.foldl min a ≤ rest.foldl max a :=
          le_trans (foldl_min_le rest a a (List.mem_cons_self a rest))
            (le_foldl_max rest a a (List.mem_cons_self a rest))
        have hscale :
            0 < (rest.foldl max a - rest.foldl min a) /
              (((2 ^ precision.bit_width - 1 : ℤ) : ℚ) - ((0 : ℤ) : ℚ)) := by
          rcases lt_or_eq_of_le hmM with hlt | heq
          · exact div_pos (by linarith) hD
          · exact absurd (by rw [← heq, sub_self, zero_div]) h0
        set scale := (rest.foldl max a - rest.foldl min a) /
          (((2 ^ precision.bit_width - 1 : ℤ) : ℚ) - ((0 : ℤ) : ℚ)) with hscdef
        set zp := max 0 (min (2 ^ precision.bit_width - 1)
          (pyRound (((0 : ℤ) : ℚ) - rest.foldl min a / scale))) with hzpdef
        set v := (a :: rest).getD i 0 with hvdef
        have hget : ((a :: rest).map fun w =>
            clampQ precision (pyRound (w / scale) + zp)).getD i 0 =
            clampQ precision (pyRound (v / scale) + zp) := by
          rw [List.getD_eq_getElem _ _ (by simpa using hi),
            List.getElem_map, hvdef, List.getD_eq_getElem _ _ hi]
        rw [hget]
        have hclamp : clampQ precision (pyRound (v / scale) + zp) =
            pyRound (v / scale) + zp := by
          rw [clampQ, min_eq_right hhi, max_eq_right hlo]
        rw [hclamp]
        have hcast : ((pyRound (v / scale) + zp : ℤ) : ℚ) - (zp : ℚ) =
            (pyRound (v / scale) : ℚ) := by
          push_cast
          ring
        rw [hcast]
        have key : |(pyRound (v / scale) : ℚ) - v / scale| ≤ 1/2 :=
          pyRound_abs_le (v / scale)
        calc |(pyRound (v / scale) : ℚ) * scale - v|
            = |((pyRound (v / scale) : ℚ) - v / scale) * scale| := by
              rw [sub_mul, div_mul_cancel₀ _ (ne_of_gt hscale)]
          _ = |(pyRound (v / scale) : ℚ) - v / scale| * scale := by
              rw [abs_mul, abs_of_pos hscale]
          _ ≤ 1/2 * scale := mul_le_mul_of_nonneg_right key hscale.le
          _ = scale / 2 := by ring

/-- Witness for `quantize_roundtrip_unclamped` on `[0, 3]` at 2-bit
precision, index 1 (scale 1, zero point 0, quantized value 3 unclamped,
reconstruction exact). -/
theorem quantize_roundtrip_unclamped_witness :
    quantized_ints [0, 3] .INT2 = some (1, 0, [0, 3])
    ∧ |((([0, 3] : List ℤ).getD 1 0 : ℚ) - ((0 : ℤ) : ℚ)) * 1 -
        ([0, 3] : List ℚ).getD 1 0| ≤ 1 / 2 := by
  have hq : quantized_ints [0, 3] .INT2 = some (1, 0, [0, 3]) := by
    norm_num [quantized_ints, pyMin, pyMax, compute_scale_zp, clampQ, pyRound,
      Precision.bit_width, min_def, max_def]
  refine ⟨hq, ?_⟩
  have h := quantize_roundtrip_unclamped [0, 3] .INT2 1 0 [0, 3] hq 1
    (by norm_num) (by norm_num [pyRound]) (by norm_num [pyRound, Precision.bit_width])
  exact h

/-- C5: for the FP16, BF16 and FP32 kinds, the quantizer does not
encode the input floats: the successfully computed intermediate is
exactly the clamped integer list
`max(0, min(2^bitWidth - 1, round(v/scale) + zeroPoint))`, the packed
buffer is `_pack_values` of those integers, and that packing is the
2-byte half encoding (FP16/BF16) or the 4-byte single encoding (FP32)
of the integers. -/
theorem quantize_packs_integers (values : List ℚ) (precision : Precision)
    (scale : ℚ) (zero_point : ℤ) (qs : List ℤ)
    (hp : precision = .FP16 ∨ precision = .BF16 ∨ precision = .FP32)
    (hq : quantized_ints values precision = some (scale, zero_point, qs)) :
    qs = values.map (fun v =>
      max 0 (min (2 ^ precision.bit_width - 1) (pyRound (v / scale) + zero_point)))
    ∧ quantize_tensor values precision =
        (pack_values qs precision).map (fun packed => (packed, scale, zero_point))
    ∧ pack_values qs precision =
        (if precision = .FP32 then packFloat32 qs else packHalf qs) := by
  cases values with
  | nil => simp [quantized_ints, pyMin] at hq
  | cons a rest =>
    refine ⟨?_, ?_, ?_⟩
    · simp only [quantized_ints, pyMin, pyMax] at hq
      rcases hsc : compute_scale_zp (rest.foldl min a) (rest.foldl max a) precision
        with _ | ⟨scale', zp'⟩
      · rw [hsc] at hq
        simp at hq
      · rw [hsc] at hq
        simp only [Option.some.injEq, Prod.mk.injEq] at hq
        obtain ⟨rfl, rfl, rfl⟩ := hq
        simp [clampQ]
    · simp [quantize_tensor, hq]
    · rcases hp with rfl | rfl | rfl <;> simp [pack_values]

/-- Witness for `quantize_packs_integers` on `[0, 2]` at FP32: the
quantized integers are `[0, 2^32 - 1]`, not the inputs. -/
theorem quantize_packs_integers_witness :
    quantized_ints [0, 2] .FP32 = some (2/4294967295, 0, [0, 4294967295])
    ∧ ([0, 4294967295] : List ℤ) = ([0, 2] : List ℚ).map (fun v =>
        max 0 (min (2 ^ Precision.FP32.bit_width - 1)
          (pyRound (v / (2/4294967295)) + 0))) := by
  have hq : quantized_ints [0, 2] .FP32 =
      some (2/4294967295, 0, [0, 4294967295]) := by
    norm_num [quantized_ints, pyMin, pyMax, compute_scale_zp, clampQ, pyRound,
      Precision.bit_width, min_def, max_def]
  exact ⟨hq,
    (quantize_packs_integers [0, 2] .FP32 (2/4294967295) 0 [0, 4294967295]
      (Or.inr (Or.inr rfl)) hq).1⟩

/-- C9: whenever planning succeeds, in the emitted plan
`total_memory_used` and `total_memory_budget` are the sums of the
per-node values, and per-node utilization is `used / budget` for a
positive budget and `0` otherwise — the formula never caps at 1. -/
theorem plan_aggregate (config : Config) (expert_config : AtomicExpertConfig)
    (plan : Plan)
    (h : generate_deployment_plan config expert_config = some plan) :
    plan.cluster.total_memory_used =
      (plan.cluster.nodes.map NodeInfo.memory_used_bytes).sum
    ∧ plan.cluster.total_memory_budget =
      (plan.cluster.nodes.map NodeInfo.memory_budget_bytes).sum
    ∧ ∀ node ∈ plan.cluster.nodes,
        node.memory_utilization =
          if node.memory_budget_bytes > 0 then
            (node.memory_used_bytes : ℚ) / (node.memory_budget_bytes : ℚ)
          else 0 := by
  rw [generate_deployment_plan] at h
  rcases Option.map_eq_some'.mp h with ⟨allocations, _, rfl⟩
  refine ⟨?_, ?_, ?_⟩
  · rw [List.map_map]; rfl
  · rw [List.map_map]; rfl
  · intro node hn
    simp only [List.mem_map] at hn
    obtain ⟨alloc, -, rfl⟩ := hn
    simp [nodeInfoOf]

/-- Witness for `plan_aggregate` on the concrete two-node cluster
`cfg0`: totals match the per-node sums, node `n1` reports utilization
`3/2 > 1` with no budget enforcement, and the zero-budget node `n2`
reports utilization `0`. -/
theorem plan_aggregate_witness :
    plan0.cluster.total_memory_used =
      (plan0.cluster.nodes.map NodeInfo.memory_used_bytes).sum
    ∧ plan0.cluster.total_memory_budget =
      (plan0.cluster.nodes.map NodeInfo.memory_budget_bytes).sum
    ∧ (∀ node ∈ plan0.cluster.nodes,
        node.memory_utilization =
          if node.memory_budget_bytes > 0 then
            (node.memory_used_bytes : ℚ) / (node.memory_budget_bytes : ℚ)
          else 0)
    ∧ plan0.cluster.nodes.map NodeInfo.memory_utilization = [3/2, 0] := by
  have hexpert : ∀ eid : PyStr, (build_expert ec0 eid).total_bytes = 12 := fun eid => by
    norm_num [build_expert, ec0, ExpertTensor.total_bytes, TensorSpec.size_bytes,
      TensorSpec.numel, pyTrunc, Precision.bytes_per_element]
  have hp8 : parse_memory ['8'] = some 8 := rfl
  have hp0 : parse_memory ['0'] = some 0 := rfl
  have hpat : expand_expert_pattern ['m', 'a', 't', 'h', '-', '*']
      [['m', 'a', 't', 'h', '-', 'a']] = [['m', 'a', 't', 'h', '-', 'a']] := by decide
  have halloc : build_allocation cfg0 ec0 = some
      [{ node_id := "n1".toList, device := "gpu".toList, memory_budget := 8,
         experts := ["math-a".toList], memory_used := 12 },
       { node_id := "n2".toList, device := "cpu".toList, memory_budget := 0,
         experts := [], memory_used := 0 }] := by
    simp [build_allocation, tryMap, cfg0, hpat, hp8, hp0, hexpert]
  have hplan : generate_deployment_plan cfg0 ec0 = some plan0 := by
    rw [generate_deployment_plan, halloc]
    norm_num [plan0, nodeInfoOf, build_router, ec0, build_expert,
      ExpertTensor.total_bytes, TensorSpec.size_bytes, TensorSpec.numel,
      pyTrunc, Precision.bytes_per_element]
  refine ⟨(plan_aggregate cfg0 ec0 plan0 hplan).1,
    (plan_aggregate cfg0 ec0 plan0 hplan).2.1,
    (plan_aggregate cfg0 ec0 plan0 hplan).2.2, ?_⟩
  norm_num [plan0]

end AtomicDom
